import Mathlib

/-!
Verification of the ray-tracing core of `lets-trace-some-rays-in-rust`.

Shallow embedding conventions:
* `f32` values are modeled as exact rationals (`ℚ`); IEEE rounding is not
  modeled, so every theorem about arithmetic is a statement about the exact
  real-number algorithm the code implements.
* `f32::sqrt` (used by the sphere intersection and by `Vec3::normalize`) has
  no exact counterpart on `ℚ`, so every definition that needs it takes an
  explicit square-root function `S : ℚ → ℚ` as a parameter; theorems
  constrain `S` only as far as the property needs, and concrete witnesses
  instantiate `S` with a small exact oracle (`exSqrt`), correct on the
  discriminants the witness inputs produce.
* `f32::EPSILON` is exactly `2⁻²³`; `f32::INFINITY` is modeled as a rational
  constant larger than every finite `f32` value.
* The rejection-sampling random generators (`random_in_unit_sphere`) are
  modeled by passing the drawn sample in as an explicit argument; the
  recursive renderer `ray_color` threads an infinite sample stream
  `rand : ℕ → Vec3`.
* Trait objects: `dyn Hittable` is modeled as its `hit` function,
  `dyn Material` as a closed inductive over the two implementations in
  `materials.rs`.
* `panic!` (the depth-underflow arm of `ray_color`) is modeled as `none` of
  an `Option` result.
-/

namespace LTSR

/-- Component-exact model of `glam::Vec3` restricted to the operations the
repository uses: the three `f32` fields become exact rationals. -/
@[ext]
structure Vec3 where
  x : ℚ
  y : ℚ
  z : ℚ
deriving DecidableEq

instance : Add Vec3 := ⟨fun a b => ⟨a.x + b.x, a.y + b.y, a.z + b.z⟩⟩

instance : Sub Vec3 := ⟨fun a b => ⟨a.x - b.x, a.y - b.y, a.z - b.z⟩⟩

instance : Neg Vec3 := ⟨fun a => ⟨-a.x, -a.y, -a.z⟩⟩

/-- Scalar multiplication `f32 * Vec3` as used by the source. -/
instance : HMul ℚ Vec3 Vec3 := ⟨fun q v => ⟨q * v.x, q * v.y, q * v.z⟩⟩

/-- Componentwise product, used by `ray_color` for `pixel_color *= color`. -/
instance : HMul Vec3 Vec3 Vec3 := ⟨fun a b => ⟨a.x * b.x, a.y * b.y, a.z * b.z⟩⟩

/-- Division of a vector by a scalar, `Vec3 / f32`. -/
instance : HDiv Vec3 ℚ Vec3 := ⟨fun v q => ⟨v.x / q, v.y / q, v.z / q⟩⟩

/-- Model of `glam::Vec3::dot`. -/
def Vec3.dot (a b : Vec3) : ℚ := a.x * b.x + a.y * b.y + a.z * b.z

/-- Model of `glam::Vec3::length_squared`. -/
def Vec3.length_squared (v : Vec3) : ℚ := v.x * v.x + v.y * v.y + v.z * v.z

/-- Model of `glam::Vec3::lerp`: `self + (rhs - self) * s`, componentwise. -/
def Vec3.lerp (a b : Vec3) (s : ℚ) : Vec3 := a + s * (b - a)

/-- Model of `glam::Vec3::normalize`, `v / |v|`, where the square root of
`length_squared` is supplied by the explicit sqrt model `S`. -/
def normalize (S : ℚ → ℚ) (v : Vec3) : Vec3 := v / S v.length_squared

/-- Model of `f32::EPSILON`, which is exactly `2⁻²³`. -/
def f32_EPSILON : ℚ := 1 / 2 ^ 23

/-- Upper bound standing in for `f32::INFINITY`: every finite `f32` is below
`2¹²⁸`, so comparisons against this constant behave like comparisons against
the IEEE infinity for any value the program can produce. -/
def f32_INFINITY : ℚ := 2 ^ 128

/-- Sqrt oracle used to instantiate the sqrt model `S` in witnesses: every
concrete witness below only ever takes the square root of `1`, so this
oracle is exact there (and nonnegative everywhere, as `f32::sqrt` is on
nonnegative input). -/
def exSqrt : ℚ → ℚ := fun q => if q = 1 then 1 else 0

-- Materials (src/ltsr/materials.rs) and hit records (src/ltsr/mod.rs)
-- --------------------------------------------------------------------------

/-- Closed model of `Arc<dyn Material>`: the repository has exactly two
implementations of the `Material` trait, `Lambertian { albedo }` and
`Metallic { albedo, roughness }`. -/
inductive Material where
  | lambertian (albedo : Vec3)
  | metallic (albedo : Vec3) (roughness : ℚ)
deriving DecidableEq

/-- Model of `HitData` from src/ltsr/mod.rs. -/
structure HitData where
  hit_point : Vec3
  normal : Vec3
  material : Material
  t : ℚ
deriving DecidableEq

/-- Model of `Ray` from src/ltsr/mod.rs. -/
structure Ray where
  origin : Vec3
  direction : Vec3
deriving DecidableEq

/-- Model of `Ray::point_at_parameter`: `origin + t * direction`. -/
def Ray.point_at_parameter (r : Ray) (t : ℚ) : Vec3 := r.origin + t * r.direction

-- Utility functions from src/ltsr/mod.rs
-- --------------------------------------------------------------------------

/-- Model of `fit_range` from src/ltsr/mod.rs:
`(omax - omin) * (x - imin) / (imax - imin) + omin`. -/
def fit_range (x imin imax omin omax : ℚ) : ℚ :=
  (omax - omin) * (x - imin) / (imax - imin) + omin

/-- Model of `near_zero` from src/ltsr/mod.rs, transcribed with the source's
exact per-component comparisons:
`vec.x.abs() <= f32::EPSILON && vec.y.abs() <= f32::EPSILON.abs() && vec.z <= f32::EPSILON`.
Note the third conjunct compares `vec.z` itself, not its absolute value. -/
def near_zero (vec : Vec3) : Bool :=
  decide (|vec.x| ≤ f32_EPSILON) && decide (|vec.y| ≤ |f32_EPSILON|)
    && decide (vec.z ≤ f32_EPSILON)

/-- Model of `reflect` from src/ltsr/mod.rs: `vec - 2 * vec.dot(normal) * normal`. -/
def reflect (vec normal : Vec3) : Vec3 := vec - (2 * vec.dot normal) * normal

/-- Model of `random_in_hemisphere` from src/ltsr/mod.rs; the unit-sphere
sample produced by the rejection loop `random_in_unit_sphere` is passed in
explicitly as `in_unit_sphere`. -/
def random_in_hemisphere (in_unit_sphere normal : Vec3) : Vec3 :=
  if in_unit_sphere.dot normal > 0 then in_unit_sphere else -in_unit_sphere

-- Theorems start further below; first the remaining definitions.

/-- Model of `impl Material for Lambertian::scatter`; `sample` is the
unit-sphere sample drawn inside `random_in_hemisphere`. -/
def Lambertian.scatter (albedo : Vec3) (sample : Vec3) (_ray_in : Ray)
    (data : HitData) : Option (Vec3 × Ray) :=
  let scatter_direction := data.hit_point + random_in_hemisphere sample data.normal
  let scatter_direction :=
    if near_zero scatter_direction then data.normal else scatter_direction
  some (albedo, ⟨data.hit_point, scatter_direction - data.hit_point⟩)

/-- Model of `impl Material for Metallic::scatter`; `sample` is the
unit-sphere sample of `random_in_unit_sphere`, and `S` models `f32::sqrt`
inside `normalize`. -/
def Metallic.scatter (S : ℚ → ℚ) (albedo : Vec3) (roughness : ℚ)
    (sample : Vec3) (ray_in : Ray) (data : HitData) : Option (Vec3 × Ray) :=
  let reflected_direction := normalize S (reflect ray_in.direction data.normal)
  let roughness_perturbation := roughness * sample
  let new_ray : Ray := ⟨data.hit_point, reflected_direction + roughness_perturbation⟩
  if new_ray.direction.dot data.normal > 0 then some (albedo, new_ray) else none

/-- Dynamic dispatch over the two `Material` implementations. -/
def Material.scatter (S : ℚ → ℚ) (m : Material) (sample : Vec3) (ray_in : Ray)
    (data : HitData) : Option (Vec3 × Ray) :=
  match m with
  | .lambertian albedo => Lambertian.scatter albedo sample ray_in data
  | .metallic albedo roughness => Metallic.scatter S albedo roughness sample ray_in data

-- Geometry (src/ltsr/mod.rs)
-- --------------------------------------------------------------------------

/-- Model of `get_face_normal` from src/ltsr/mod.rs. -/
def get_face_normal (ray : Ray) (outward_normal : Vec3) : Vec3 × Bool :=
  let is_front_face : Bool := decide (ray.direction.dot outward_normal < 0)
  (if is_front_face then outward_normal else (-1 : ℚ) * outward_normal, is_front_face)

/-- Model of `Sphere` from src/ltsr/mod.rs. -/
structure Sphere where
  radius : ℚ
  center : Vec3
  material : Material
deriving DecidableEq

/-- Model of `impl Hittable for Sphere::hit`; `S` models `f32::sqrt` applied
to the discriminant. -/
def Sphere.hit (S : ℚ → ℚ) (s : Sphere) (ray : Ray) (t_min t_max : ℚ) :
    Option HitData :=
  let center_to_origin := ray.origin - s.center
  let a := ray.direction.length_squared
  let half_b := center_to_origin.dot ray.direction
  let c := center_to_origin.length_squared - s.radius ^ 2
  let discriminant := half_b ^ 2 - a * c
  if discriminant < 0 then none
  else
    let discriminant_squared := S discriminant
    let mk_hit := fun (t : ℚ) =>
      let hit_point := ray.point_at_parameter t
      let outward_normal := (hit_point - s.center) / s.radius
      let normal := (get_face_normal ray outward_normal).1
      some (⟨hit_point, normal, s.material, t⟩ : HitData)
    let t := (-half_b - discriminant_squared) / a
    if t < t_min ∨ t_max < t then
      let t := (-half_b + discriminant_squared) / a
      if t < t_min ∨ t_max < t then none else mk_hit t
    else mk_hit t

/-- A `dyn Hittable` trait object is its `hit` function. -/
abbrev Hittable : Type := Ray → ℚ → ℚ → Option HitData

/-- Model of `Scene` from src/ltsr/mod.rs. -/
structure Scene where
  elements : List Hittable

/-- The loop body of `impl Hittable for Scene::hit`: iterates the elements,
carrying `closest_hit` and `closest_so_far` exactly as the source does. -/
def Scene.hitAux (ray : Ray) (t_min : ℚ) :
    List Hittable → Option HitData → ℚ → Option HitData
  | [], closest_hit, _ => closest_hit
  | element :: rest, closest_hit, closest_so_far =>
    match element ray t_min closest_so_far with
    | some hit_data => Scene.hitAux ray t_min rest (some hit_data) hit_data.t
    | none => Scene.hitAux ray t_min rest closest_hit closest_so_far

/-- Model of `impl Hittable for Scene::hit`. -/
def Scene.hit (scene : Scene) (ray : Ray) (t_min t_max : ℚ) : Option HitData :=
  Scene.hitAux ray t_min scene.elements none t_max

-- Renderer (src/ltsr/mod.rs)
-- --------------------------------------------------------------------------

/-- Model of `get_background_color` from src/ltsr/mod.rs. -/
def get_background_color (S : ℚ → ℚ) (ray : Ray) : Vec3 :=
  let unit_direction := normalize S ray.direction
  let white : Vec3 := ⟨1, 1, 1⟩
  let blue : Vec3 := ⟨1/2, 7/10, 1⟩
  let t := 1/2 * (unit_direction.y + 1)
  let color := white.lerp blue t
  ⟨color.x, color.y, color.z⟩

/-- Model of `i32::checked_sub(1)` over unbounded integers: subtracting one
from an `i32` can only underflow, which happens exactly when the result would
fall below `-2³¹`. -/
def i32_checked_sub_one (n : ℤ) : Option ℤ :=
  if n - 1 < -(2 ^ 31) then none else some (n - 1)

/-- Model of `ray_color` from src/ltsr/mod.rs. The `panic!` on checked-sub
underflow is modeled as `none`; `rand k` is the unit-sphere sample the
material draws at recursion level `k`. -/
def ray_color (S : ℚ → ℚ) (rand : ℕ → Vec3) (k : ℕ) (scene : Scene)
    (ray : Ray) (max_depth : ℤ) : Option Vec3 :=
  let t_min : ℚ := 1/1000
  let t_max : ℚ := f32_INFINITY
  if h : max_depth ≤ 0 then some ⟨0, 0, 0⟩
  else
    match Scene.hit scene ray t_min t_max with
    | some object =>
      match h2 : i32_checked_sub_one max_depth with
      | none => none
      | some new_max_depth =>
        match Material.scatter S object.material (rand k) ray object with
        | some (color, new_ray) =>
          (ray_color S rand (k + 1) scene new_ray new_max_depth).map
            (fun c => color * c)
        | none => some ⟨0, 0, 0⟩
    | none => some (get_background_color S ray)
termination_by max_depth.toNat
decreasing_by
  simp only [i32_checked_sub_one] at h2
  split at h2
  · exact absurd h2 (by simp)
  · simp only [Option.some.injEq] at h2
    omega

-- Display conversion (src/app/rendering.rs and src/constants.rs)
-- --------------------------------------------------------------------------

/-- Model of `RENDER_BUFFER_WIDTH` from src/constants.rs. -/
def RENDER_BUFFER_WIDTH : ℕ := 1024

/-- Model of `RENDER_BUFFER_HEIGHT` from src/constants.rs. -/
def RENDER_BUFFER_HEIGHT : ℕ := 1024

/-- Model of `RENDER_BUFFER_SIZE` from src/constants.rs. -/
def RENDER_BUFFER_SIZE : ℕ := RENDER_BUFFER_WIDTH * RENDER_BUFFER_HEIGHT * 4

/-- Model of `AppError` from src/app/mod.rs. -/
inductive AppError where
  | RenderError
deriving DecidableEq

/-- Model of `slice::chunks_exact(4)`: complete 4-element chunks, any
shorter remainder dropped. -/
def chunks_exact_4 : List ℚ → List (ℚ × ℚ × ℚ × ℚ)
  | a :: b :: c :: d :: rest => (a, b, c, d) :: chunks_exact_4 rest
  | _ => []

/-- Model of Rust's saturating `f32 as u8` cast: negative values and NaN go
to 0, values ≥ 256 clamp to 255, otherwise truncate toward zero. -/
def f32_as_u8 (v : ℚ) : ℕ := if v ≤ 0 then 0 else min 255 (⌊v⌋.toNat)

/-- One iteration of the conversion loop of
`RenderTask::convert_to_display_buffer`: a linear RGBA pixel becomes four
bytes. The tonemap-and-encode pipeline of the non-data-pass branch lives in
the external `colstodian` crate and is abstracted as the `tonemap`
parameter (its alpha byte, `(255 * alpha) as u8`, is computed in the
repository and modeled here). -/
def convert_pixel (tonemap : ℚ × ℚ × ℚ → ℕ × ℕ × ℕ) (is_data_pass : Bool)
    (p : ℚ × ℚ × ℚ × ℚ) : List ℕ :=
  if is_data_pass then
    [f32_as_u8 (p.1 * 255), f32_as_u8 (p.2.1 * 255),
     f32_as_u8 (p.2.2.1 * 255), f32_as_u8 (p.2.2.2 * 255)]
  else
    let rgb := tonemap (p.1, p.2.1, p.2.2.1)
    [rgb.1, rgb.2.1, rgb.2.2, f32_as_u8 (255 * p.2.2.2)]

/-- Model of `RenderTask::convert_to_display_buffer`: allocates a zeroed
display buffer of `RENDER_BUFFER_SIZE` bytes, then overwrites one 4-byte
display pixel per complete 4-float input pixel, pairs being produced by
`zip(render.chunks_exact(4), display.chunks_exact_mut(4))`; the untouched
tail keeps its zeros. Always returns `Ok`. -/
def convert_to_display_buffer (tonemap : ℚ × ℚ × ℚ → ℕ × ℕ × ℕ)
    (render_buffer : List ℚ) (is_data_pass : Bool) :
    Except AppError (List ℕ) :=
  let pixels := (chunks_exact_4 render_buffer).take (RENDER_BUFFER_SIZE / 4)
  Except.ok ((pixels.map (convert_pixel tonemap is_data_pass)).flatten
    ++ List.replicate (RENDER_BUFFER_SIZE - 4 * pixels.length) 0)

-- Spec-side definitions (used only to compare against the code-derived
-- definitions above) and reusable predicates for the theorems
-- --------------------------------------------------------------------------

/-- Discriminant of the sphere-intersection quadratic, named for use in
theorem statements; `Sphere.hit` computes exactly this value. -/
def sphere_disc (s : Sphere) (ray : Ray) : ℚ :=
  ((ray.origin - s.center).dot ray.direction) ^ 2
    - ray.direction.length_squared
      * ((ray.origin - s.center).length_squared - s.radius ^ 2)

/-- The smaller quadratic root evaluated first by `Sphere.hit`. -/
def sphere_t1 (S : ℚ → ℚ) (s : Sphere) (ray : Ray) : ℚ :=
  (-(ray.origin - s.center).dot ray.direction - S (sphere_disc s ray))
    / ray.direction.length_squared

/-- The larger quadratic root used as the fallback by `Sphere.hit`. -/
def sphere_t2 (S : ℚ → ℚ) (s : Sphere) (ray : Ray) : ℚ :=
  (-(ray.origin - s.center).dot ray.direction + S (sphere_disc s ray))
    / ray.direction.length_squared

/-- The hit record `Sphere.hit` builds for an accepted parameter `t`. -/
def sphere_mk_hit (s : Sphere) (ray : Ray) (t : ℚ) : HitData :=
  ⟨ray.point_at_parameter t,
   (get_face_normal ray ((ray.point_at_parameter t - s.center) / s.radius)).1,
   s.material, t⟩

/-- Transcription of the spec's sphere-intersection description (section 4.1
of spec.md), written to be compared against the code-derived `Sphere.hit`:
no hit if the discriminant is negative, otherwise take the smaller root if it
lies in `[t_min, t_max]`, fall back to the larger root, else no hit; the
normal is `(hit_point - center) / radius`, negated unless its dot product
with the ray direction is negative. -/
def Sphere.hit_from_spec (S : ℚ → ℚ) (s : Sphere) (ray : Ray)
    (t_min t_max : ℚ) : Option HitData :=
  let a := ray.direction.length_squared
  let half_b := (ray.origin - s.center).dot ray.direction
  let c := (ray.origin - s.center).length_squared - s.radius ^ 2
  let discriminant := half_b ^ 2 - a * c
  if discriminant < 0 then none
  else
    let sqrt_d := S discriminant
    let t_small := (-half_b - sqrt_d) / a
    let t_large := (-half_b + sqrt_d) / a
    let make := fun (t : ℚ) =>
      let hit_point := ray.origin + t * ray.direction
      let outward := (hit_point - s.center) / s.radius
      let normal := if ray.direction.dot outward < 0 then outward else -outward
      some (⟨hit_point, normal, s.material, t⟩ : HitData)
    if t_min ≤ t_small ∧ t_small ≤ t_max then make t_small
    else if t_min ≤ t_large ∧ t_large ≤ t_max then make t_large
    else none

/-- The hit record of the spec's description, with the normal written as
the spec words it: `(hit_point - center) / radius`, negated unless its dot
product with the ray direction is negative. -/
def sphere_spec_mk (s : Sphere) (ray : Ray) (t : ℚ) : HitData :=
  ⟨ray.origin + t * ray.direction,
   if ray.direction.dot ((ray.origin + t * ray.direction - s.center) / s.radius) < 0
   then (ray.origin + t * ray.direction - s.center) / s.radius
   else -((ray.origin + t * ray.direction - s.center) / s.radius),
   s.material, t⟩

/-- Spec-side tie-breaking fold: keep the accumulator unless the new
candidate hit is at least as close (so among equal-`t` hits the last one
wins). `Scene.hit` is proved equal to folding this over the elements'
full-window hits. -/
def select_closest (acc cand : Option HitData) : Option HitData :=
  match cand with
  | none => acc
  | some d =>
    match acc with
    | none => some d
    | some b => if d.t ≤ b.t then some d else some b

/-- Spec-side description of the scene aggregate: fold the full-window hits
of all elements, keeping the closest and resolving ties in favor of the
later element. -/
def closest_hit_from_spec (hits : List (Option HitData)) : Option HitData :=
  hits.foldl select_closest none

/-- Behavioral contract a `hit` function must satisfy for the scene fold to
compute the globally closest hit: reported parameters lie in the window, a
reported hit survives any window shrink that still contains it, a miss stays
a miss under shrinking, and a hit strictly beyond the shrunken window
becomes a miss. `Sphere.hit` satisfies it (for rays with a nonzero
direction and a nonnegative sqrt model). -/
structure HittableContract (h : Hittable) (ray : Ray) : Prop where
  bound : ∀ t_min t_max d, h ray t_min t_max = some d →
    t_min ≤ d.t ∧ d.t ≤ t_max
  stable : ∀ t_min t_max t_max' d, h ray t_min t_max = some d →
    t_max' ≤ t_max → d.t ≤ t_max' → h ray t_min t_max' = some d
  shrink_none : ∀ t_min t_max t_max', h ray t_min t_max = none →
    t_max' ≤ t_max → h ray t_min t_max' = none
  far_none : ∀ t_min t_max t_max' d, h ray t_min t_max = some d →
    t_max' ≤ t_max → t_max' < d.t → h ray t_min t_max' = none

/-- Soundness of a single element's hit result: the parameter is inside the
query window and the hit point lies on the ray at that parameter. -/
def ElementSound (h : Hittable) (ray : Ray) : Prop :=
  ∀ t_min t_max d, h ray t_min t_max = some d →
    t_min ≤ d.t ∧ d.t ≤ t_max ∧ d.hit_point = ray.point_at_parameter d.t

-- Concrete fixtures used by witnesses and counterexamples
-- --------------------------------------------------------------------------

/-- Example ray aimed down the negative z axis from the origin. -/
def exRay : Ray := ⟨⟨0, 0, 0⟩, ⟨0, 0, -1⟩⟩

/-- Example material A. -/
def exMatA : Material := .lambertian ⟨1, 0, 0⟩

/-- Example material B, distinguishable from A. -/
def exMatB : Material := .lambertian ⟨0, 1, 0⟩

/-- Example unit sphere straight ahead of `exRay`, material A. -/
def exSphereA : Sphere := ⟨1, ⟨0, 0, -2⟩, exMatA⟩

/-- Example sphere with the same geometry as `exSphereA` but material B. -/
def exSphereB : Sphere := ⟨1, ⟨0, 0, -2⟩, exMatB⟩

/-- Example hit record at the origin with an upward-facing z normal. -/
def exHit : HitData := ⟨⟨0, 0, 0⟩, ⟨0, 0, 1⟩, exMatA, 1⟩

-- Componentwise lemmas about the Vec3 operations
-- --------------------------------------------------------------------------

@[simp] lemma vadd_x (a b : Vec3) : (a + b).x = a.x + b.x := rfl

@[simp] lemma vadd_y (a b : Vec3) : (a + b).y = a.y + b.y := rfl

@[simp] lemma vadd_z (a b : Vec3) : (a + b).z = a.z + b.z := rfl

@[simp] lemma vsub_x (a b : Vec3) : (a - b).x = a.x - b.x := rfl

@[simp] lemma vsub_y (a b : Vec3) : (a - b).y = a.y - b.y := rfl

@[simp] lemma vsub_z (a b : Vec3) : (a - b).z = a.z - b.z := rfl

@[simp] lemma vneg_x (a : Vec3) : (-a).x = -a.x := rfl

@[simp] lemma vneg_y (a : Vec3) : (-a).y = -a.y := rfl

@[simp] lemma vneg_z (a : Vec3) : (-a).z = -a.z := rfl

@[simp] lemma vsmul_x (q : ℚ) (a : Vec3) : (q * a).x = q * a.x := rfl

@[simp] lemma vsmul_y (q : ℚ) (a : Vec3) : (q * a).y = q * a.y := rfl

@[simp] lemma vsmul_z (q : ℚ) (a : Vec3) : (q * a).z = q * a.z := rfl

@[simp] lemma vmul_x (a b : Vec3) : (a * b).x = a.x * b.x := rfl

@[simp] lemma vmul_y (a b : Vec3) : (a * b).y = a.y * b.y := rfl

@[simp] lemma vmul_z (a b : Vec3) : (a * b).z = a.z * b.z := rfl

@[simp] lemma vdivq_x (a : Vec3) (q : ℚ) : (a / q).x = a.x / q := rfl

@[simp] lemma vdivq_y (a : Vec3) (q : ℚ) : (a / q).y = a.y / q := rfl

@[simp] lemma vdivq_z (a : Vec3) (q : ℚ) : (a / q).z = a.z / q := rfl

/-- Vector equality componentwise. -/
lemma vec3_eq (a b : Vec3) : a = b ↔ a.x = b.x ∧ a.y = b.y ∧ a.z = b.z := by
  constructor
  · rintro rfl; exact ⟨rfl, rfl, rfl⟩
  · rintro ⟨h1, h2, h3⟩; cases a; cases b; simp_all

/-- Negating a vector by the scalar `-1`, as the source writes it, is
negation. -/
lemma neg_one_smul_vec3 (v : Vec3) : ((-1 : ℚ) * v : Vec3) = -v := by
  rw [vec3_eq]; simp

/-- Cancellation used for the Lambertian scatter direction. -/
lemma vadd_sub_cancel (a b : Vec3) : a + b - a = b := by
  rw [vec3_eq]; simp

/-- The squared length of a nonzero vector is positive. -/
lemma length_squared_pos (v : Vec3) (hv : v ≠ ⟨0, 0, 0⟩) :
    0 < v.length_squared := by
  have hx := mul_self_nonneg v.x
  have hy := mul_self_nonneg v.y
  have hz := mul_self_nonneg v.z
  by_contra h
  push_neg at h
  simp only [Vec3.length_squared] at h
  apply hv
  rw [vec3_eq]
  refine ⟨mul_self_eq_zero.mp (le_antisymm (by nlinarith) hx),
    mul_self_eq_zero.mp (le_antisymm (by nlinarith) hy),
    mul_self_eq_zero.mp (le_antisymm (by nlinarith) hz)⟩

/-- The witness sqrt oracle is nonnegative everywhere. -/
lemma exSqrt_nonneg : ∀ q, 0 ≤ exSqrt q := by
  intro q
  unfold exSqrt
  split <;> norm_num

-- Claim C7
-- --------------------------------------------------------------------------

/-- C7: the `near_zero` helper applies its epsilon test inconsistently: the
`z` component is compared signed rather than in absolute value, so the far
vector `(0, 0, -1)` — whose `z` is strictly below `-ε` while `x` and `y` are
within `ε` — is classified as near zero, while `(0, 0, 1)` is not; the `y`
comparison against `ε.abs()` coincides with comparison against `ε`. -/
theorem near_zero_z_sign_flaw :
    near_zero ⟨0, 0, -1⟩ = true ∧
    (-1 : ℚ) < -f32_EPSILON ∧
    ¬ (|(-1 : ℚ)| ≤ f32_EPSILON) ∧
    |(0 : ℚ)| ≤ f32_EPSILON ∧
    |f32_EPSILON| = f32_EPSILON ∧
    near_zero ⟨0, 0, 1⟩ = false := by
  norm_num [near_zero, f32_EPSILON]

-- Claim C9
-- --------------------------------------------------------------------------

/-- C9: `fit_range` is the affine map
`(omax - omin) * (x - imin) / (imax - imin) + omin` with no clamping, and
composing it with its inverse range swap round-trips every input exactly
(over the exact arithmetic of the embedding), for any non-degenerate
ranges. -/
theorem fit_range_affine_round_trip (x a b c d : ℚ) (hab : a ≠ b)
    (hcd : c ≠ d) :
    fit_range x a b c d = (d - c) * (x - a) / (b - a) + c ∧
    fit_range (fit_range x a b c d) c d a b = x := by
  have hba : b - a ≠ 0 := sub_ne_zero.mpr (Ne.symm hab)
  have hdc : d - c ≠ 0 := sub_ne_zero.mpr (Ne.symm hcd)
  refine ⟨rfl, ?_⟩
  unfold fit_range
  field_simp
  ring

/-- C9 witness: a concrete round trip through `[0,1] → [5,7]` and back. -/
theorem fit_range_affine_round_trip_witness :
    (0 : ℚ) ≠ 1 ∧ (5 : ℚ) ≠ 7 ∧ fit_range (fit_range 2 0 1 5 7) 5 7 0 1 = 2 :=
  ⟨by norm_num, by norm_num,
    (fit_range_affine_round_trip 2 0 1 5 7 (by norm_num) (by norm_num)).2⟩

-- Claim C2
-- --------------------------------------------------------------------------

/-- C2 counterexample: at a hit point away from the origin the degenerate
guard misfires. With hit point `(0,0,-2)`, normal `(0,0,1)` and hemisphere
sample `(0,0,1/2)` (not within epsilon of zero in all axes — its `z`
exceeds `ε`), the code returns the scatter direction `(0,0,3)`, which is
neither the claimed hemisphere offset `(0,0,1/2)` nor the claimed
substituted normal `(0,0,1)`. -/
theorem lambertian_guard_counterexample :
    Lambertian.scatter ⟨1, 1, 1⟩ ⟨0, 0, 1/2⟩ exRay ⟨⟨0, 0, -2⟩, ⟨0, 0, 1⟩, exMatA, 1⟩
        = some (⟨1, 1, 1⟩, ⟨⟨0, 0, -2⟩, ⟨0, 0, 3⟩⟩) ∧
    random_in_hemisphere ⟨0, 0, 1/2⟩ ⟨0, 0, 1⟩ = ⟨0, 0, 1/2⟩ ∧
    ¬ (|(1/2 : ℚ)| ≤ f32_EPSILON) ∧
    ((⟨0, 0, 3⟩ : Vec3) ≠ ⟨0, 0, 1/2⟩) ∧ ((⟨0, 0, 3⟩ : Vec3) ≠ ⟨0, 0, 1⟩) := by
  refine ⟨?_, ?_, ?_, ?_, ?_⟩
  · norm_num [Lambertian.scatter, random_in_hemisphere, near_zero, Vec3.dot,
      f32_EPSILON, exRay, vec3_eq]
  · norm_num [random_in_hemisphere, Vec3.dot, vec3_eq]
  · rw [abs_of_pos (by norm_num : (0 : ℚ) < 1/2)]
    norm_num [f32_EPSILON]
  · norm_num [vec3_eq]
  · norm_num [vec3_eq]

/-- C2 amended: the Lambertian scatter ray always originates at the hit
point; its direction is the hemisphere sample `random_in_hemisphere`,
except that when `near_zero` (as implemented) accepts
`hit_point + random_in_hemisphere(normal)` — not the raw offset — the
direction becomes `normal − hit_point` rather than the normal itself. -/
theorem lambertian_scatter_amended (albedo sample : Vec3) (ray_in : Ray)
    (data : HitData) :
    Lambertian.scatter albedo sample ray_in data =
      some (albedo, ⟨data.hit_point,
        if near_zero (data.hit_point + random_in_hemisphere sample data.normal)
        then data.normal - data.hit_point
        else random_in_hemisphere sample data.normal⟩) := by
  unfold Lambertian.scatter
  dsimp only
  split_ifs with h
  · rfl
  · rw [vadd_sub_cancel]

-- Claim C4
-- --------------------------------------------------------------------------

/-- C4: Lambertian scatter always returns `some`; Metallic scatter returns
`none` exactly when the perturbed reflection direction (normalized
reflection plus roughness times the unit-sphere sample) has nonpositive dot
product with the surface normal, and otherwise returns the albedo together
with the perturbed ray from the hit point. -/
theorem scatter_absorption (S : ℚ → ℚ) (albedo : Vec3) (roughness : ℚ)
    (sample : Vec3) (ray_in : Ray) (data : HitData) :
    (Lambertian.scatter albedo sample ray_in data).isSome = true ∧
    (Metallic.scatter S albedo roughness sample ray_in data = none ↔
      (normalize S (reflect ray_in.direction data.normal)
        + roughness * sample).dot data.normal ≤ 0) ∧
    (0 < (normalize S (reflect ray_in.direction data.normal)
        + roughness * sample).dot data.normal →
      Metallic.scatter S albedo roughness sample ray_in data =
        some (albedo, ⟨data.hit_point,
          normalize S (reflect ray_in.direction data.normal)
            + roughness * sample⟩)) := by
  refine ⟨rfl, ?_, ?_⟩
  · unfold Metallic.scatter
    dsimp only
    split_ifs with h
    · exact iff_of_false (by simp) (not_le.mpr h)
    · exact iff_of_true rfl (not_lt.mp h)
  · intro hpos
    unfold Metallic.scatter
    dsimp only
    rw [if_pos hpos]

/-- C4 witness: a head-on metallic reflection with zero roughness points
along the normal and is returned. -/
theorem scatter_absorption_witness :
    (0 : ℚ) < (normalize exSqrt (reflect exRay.direction exHit.normal)
        + (0 : ℚ) * (⟨0, 0, 0⟩ : Vec3)).dot exHit.normal ∧
    Metallic.scatter exSqrt ⟨1, 1, 1⟩ 0 ⟨0, 0, 0⟩ exRay exHit =
      some (⟨1, 1, 1⟩, ⟨⟨0, 0, 0⟩, ⟨0, 0, 1⟩⟩) := by
  have hpos : (0 : ℚ) < (normalize exSqrt (reflect exRay.direction exHit.normal)
      + (0 : ℚ) * (⟨0, 0, 0⟩ : Vec3)).dot exHit.normal := by
    norm_num [normalize, reflect, Vec3.dot, Vec3.length_squared, exSqrt,
      exRay, exHit]
  refine ⟨hpos, ?_⟩
  have h := (scatter_absorption exSqrt ⟨1, 1, 1⟩ 0 ⟨0, 0, 0⟩ exRay exHit).2.2 hpos
  rw [h]
  norm_num [normalize, reflect, Vec3.dot, Vec3.length_squared, exSqrt,
    exRay, exHit, vec3_eq]

-- Claim C8
-- --------------------------------------------------------------------------

/-- Length of one converted display pixel. -/
lemma convert_pixel_length (tm : ℚ × ℚ × ℚ → ℕ × ℕ × ℕ) (b : Bool)
    (p : ℚ × ℚ × ℚ × ℚ) : (convert_pixel tm b p).length = 4 := by
  unfold convert_pixel
  split_ifs <;> rfl

/-- Length of the flattened converted pixel list. -/
lemma flatten_convert_length (tm : ℚ × ℚ × ℚ → ℕ × ℕ × ℕ) (b : Bool) :
    ∀ l : List (ℚ × ℚ × ℚ × ℚ),
      ((l.map (convert_pixel tm b)).flatten).length = 4 * l.length := by
  intro l
  induction l with
  | nil => rfl
  | cons p rest ih =>
    simp only [List.map_cons, List.flatten_cons, List.length_append,
      List.length_cons, convert_pixel_length, ih]
    ring

/-- C8 counterexample: on the empty input buffer (with the data-pass flag
set) the conversion returns a display buffer of `RENDER_BUFFER_SIZE`
(= 4_194_304) bytes, not one of the input's length 0. -/
theorem convert_to_display_length_counterexample :
    ∃ out, convert_to_display_buffer (fun _ => (0, 0, 0)) [] true
        = Except.ok out ∧
      out.length = 4194304 ∧
      ([] : List ℚ).length = 0 ∧ (4194304 : ℕ) ≠ 0 := by
  refine ⟨_, rfl, ?_, rfl, by norm_num⟩
  have h0 : chunks_exact_4 [] = [] := rfl
  simp only [h0, List.take_nil, List.map_nil, List.flatten_nil,
    List.nil_append, List.length_replicate, List.length_nil]
  norm_num [RENDER_BUFFER_SIZE, RENDER_BUFFER_WIDTH, RENDER_BUFFER_HEIGHT]

/-- C8 amended: for every input buffer and flag the conversion returns `Ok`
with a display buffer of exactly `RENDER_BUFFER_SIZE` bytes; this equals the
input length precisely when the input is a full render buffer (as every
buffer produced by the render driver is). -/
theorem convert_to_display_length_amended (tm : ℚ × ℚ × ℚ → ℕ × ℕ × ℕ)
    (rb : List ℚ) (b : Bool) :
    ∃ out, convert_to_display_buffer tm rb b = Except.ok out ∧
      out.length = RENDER_BUFFER_SIZE ∧
      (rb.length = RENDER_BUFFER_SIZE → out.length = rb.length) := by
  have hsz : RENDER_BUFFER_SIZE = 4194304 := by
    norm_num [RENDER_BUFFER_SIZE, RENDER_BUFFER_WIDTH, RENDER_BUFFER_HEIGHT]
  refine ⟨_, rfl, ?_, ?_⟩
  · have h1 : ((chunks_exact_4 rb).take (RENDER_BUFFER_SIZE / 4)).length
        ≤ RENDER_BUFFER_SIZE / 4 := by
      simp [List.length_take]
    simp only [List.length_append, flatten_convert_length,
      List.length_replicate]
    omega
  · intro hrb
    have h1 : ((chunks_exact_4 rb).take (RENDER_BUFFER_SIZE / 4)).length
        ≤ RENDER_BUFFER_SIZE / 4 := by
      simp [List.length_take]
    simp only [List.length_append, flatten_convert_length,
      List.length_replicate, hrb]
    omega

/-- C8 amended witness: a two-pixel input still yields a full-size display
buffer. -/
theorem convert_to_display_length_amended_witness :
    ∃ out, convert_to_display_buffer (fun _ => (0, 0, 0))
        (List.replicate 8 (1 : ℚ)) false = Except.ok out ∧
      out.length = RENDER_BUFFER_SIZE := by
  obtain ⟨out, h1, h2, _⟩ :=
    convert_to_display_length_amended (fun _ => (0, 0, 0))
      (List.replicate 8 (1 : ℚ)) false
  exact ⟨out, h1, h2⟩

-- Claim C5
-- --------------------------------------------------------------------------

/-- C5: `ray_color` with a nonpositive depth budget returns exactly black
before consulting the scene or any material, and for every depth the
guarded decrement never takes the fatal underflow arm (the embedded `panic`
value `none` is unreachable), because the hit branch only runs under a
positive depth. -/
theorem ray_color_depth_safe (S : ℚ → ℚ) (rand : ℕ → Vec3) (k : ℕ)
    (scene : Scene) (ray : Ray) (max_depth : ℤ) :
    (max_depth ≤ 0 → ray_color S rand k scene ray max_depth = some ⟨0, 0, 0⟩) ∧
    ray_color S rand k scene ray max_depth ≠ none := by
  have key : ∀ n : ℕ, ∀ d : ℤ, d.toNat ≤ n → ∀ (k : ℕ) (ray : Ray),
      ray_color S rand k scene ray d ≠ none := by
    intro n
    induction n with
    | zero =>
      intro d hd k ray
      rw [ray_color]
      rw [dif_pos (by omega : d ≤ 0)]
      exact Option.noConfusion
    | succ n ih =>
      intro d hd k ray
      rw [ray_color]
      split
      · exact Option.noConfusion
      next hd0 =>
        split
        next object hhit =>
          split
          next hnone =>
            exfalso
            unfold i32_checked_sub_one at hnone
            rw [if_neg (by omega)] at hnone
            exact Option.noConfusion hnone
          next nd hnd =>
            have hnd' : nd = d - 1 := by
              unfold i32_checked_sub_one at hnd
              rw [if_neg (by omega)] at hnd
              exact (Option.some.injEq _ _ ▸ hnd).symm
            split
            next color new_ray hsc =>
              intro hmap
              rcases Option.map_eq_none'.mp hmap with hrec
              exact ih nd (by omega) (k + 1) new_ray hrec
            next => exact Option.noConfusion
        next hhit => exact Option.noConfusion
  refine ⟨?_, key max_depth.toNat max_depth le_rfl k ray⟩
  intro h0
  rw [ray_color]
  rw [dif_pos h0]

/-- C5 witness: depth 0 on a concrete ray and scene yields black. -/
theorem ray_color_depth_safe_witness :
    ((0 : ℤ) ≤ 0) ∧
    ray_color exSqrt (fun _ => ⟨0, 0, 0⟩) 0 ⟨[]⟩ exRay 0 = some ⟨0, 0, 0⟩ :=
  ⟨le_refl 0,
    (ray_color_depth_safe exSqrt (fun _ => ⟨0, 0, 0⟩) 0 ⟨[]⟩ exRay 0).1
      (le_refl 0)⟩

-- Claim C6
-- --------------------------------------------------------------------------

/-- C6: whenever the scene reports no hit for the renderer's query window
(in particular for any ray in an empty scene) and the depth budget is
positive, `ray_color` returns exactly the background gradient: the linear
interpolation between white and sky-blue at parameter
`1/2 * (dir.y + 1)` of the normalized direction, with no material scatter
involved. -/
theorem ray_color_miss_background (S : ℚ → ℚ) (rand : ℕ → Vec3) (k : ℕ)
    (scene : Scene) (ray : Ray) (max_depth : ℤ) (hd : 0 < max_depth)
    (hmiss : Scene.hit scene ray (1/1000) f32_INFINITY = none) :
    ray_color S rand k scene ray max_depth = some (get_background_color S ray) ∧
    get_background_color S ray =
      Vec3.lerp ⟨1, 1, 1⟩ ⟨1/2, 7/10, 1⟩
        (1/2 * ((normalize S ray.direction).y + 1)) := by
  refine ⟨?_, rfl⟩
  rw [ray_color]
  rw [dif_neg (by omega : ¬ max_depth ≤ 0)]
  simp only [hmiss]

/-- C6 witness: a straight-up ray in the empty scene returns the sky-blue
end of the gradient. -/
theorem ray_color_miss_background_witness :
    (0 : ℤ) < 1 ∧
    ray_color exSqrt (fun _ => ⟨0, 0, 0⟩) 0 ⟨[]⟩ ⟨⟨0, 0, 0⟩, ⟨0, 1, 0⟩⟩ 1
      = some ⟨1/2, 7/10, 1⟩ := by
  refine ⟨by norm_num, ?_⟩
  have h := (ray_color_miss_background exSqrt (fun _ => ⟨0, 0, 0⟩) 0 ⟨[]⟩
    ⟨⟨0, 0, 0⟩, ⟨0, 1, 0⟩⟩ 1 (by norm_num) rfl).1
  rw [h]
  norm_num [get_background_color, normalize, Vec3.length_squared, Vec3.lerp,
    exSqrt, vec3_eq]

-- Claim C3
-- --------------------------------------------------------------------------

/-- Case normal form of `Sphere.hit` over the named discriminant, roots and
record constructor; holds by definitional unfolding. -/
lemma sphere_hit_cases (S : ℚ → ℚ) (s : Sphere) (ray : Ray) (t_min t_max : ℚ) :
    Sphere.hit S s ray t_min t_max =
      if sphere_disc s ray < 0 then none
      else if sphere_t1 S s ray < t_min ∨ t_max < sphere_t1 S s ray then
        if sphere_t2 S s ray < t_min ∨ t_max < sphere_t2 S s ray then none
        else some (sphere_mk_hit s ray (sphere_t2 S s ray))
      else some (sphere_mk_hit s ray (sphere_t1 S s ray)) := rfl

/-- Case normal form of the spec-side sphere intersection. -/
lemma sphere_hit_from_spec_cases (S : ℚ → ℚ) (s : Sphere) (ray : Ray)
    (t_min t_max : ℚ) :
    Sphere.hit_from_spec S s ray t_min t_max =
      if sphere_disc s ray < 0 then none
      else if t_min ≤ sphere_t1 S s ray ∧ sphere_t1 S s ray ≤ t_max then
        some (sphere_spec_mk s ray (sphere_t1 S s ray))
      else if t_min ≤ sphere_t2 S s ray ∧ sphere_t2 S s ray ≤ t_max then
        some (sphere_spec_mk s ray (sphere_t2 S s ray))
      else none := rfl

/-- The code's hit record equals the spec's: the decide-based front-face
branch and the `(-1) *` negation coincide with the spec's sign test and
vector negation. -/
lemma sphere_mk_hit_eq_spec (s : Sphere) (ray : Ray) (t : ℚ) :
    sphere_mk_hit s ray t = sphere_spec_mk s ray t := by
  simp only [sphere_mk_hit, sphere_spec_mk, get_face_normal,
    Ray.point_at_parameter, decide_eq_true_eq]
  split_ifs with h
  · rfl
  · rw [HitData.mk.injEq]
    exact ⟨rfl, neg_one_smul_vec3 _, rfl, rfl⟩

/-- C3: for every sphere of positive radius and every ray, `Sphere.hit`
implements exactly the algorithm the spec describes: reject a negative
discriminant, accept the smaller root when inside `[t_min, t_max]`, fall
back to the larger root, reject otherwise; the record's normal is
`(hit_point - center) / radius`, negated unless its dot product with the
ray direction is negative. -/
theorem sphere_hit_implements_spec (S : ℚ → ℚ) (s : Sphere) (ray : Ray)
    (t_min t_max : ℚ) (hr : 0 < s.radius) :
    Sphere.hit S s ray t_min t_max = Sphere.hit_from_spec S s ray t_min t_max := by
  rw [sphere_hit_cases, sphere_hit_from_spec_cases]
  by_cases hd : sphere_disc s ray < 0
  · rw [if_pos hd, if_pos hd]
  · rw [if_neg hd, if_neg hd]
    by_cases h1 : sphere_t1 S s ray < t_min ∨ t_max < sphere_t1 S s ray
    · have h1' : ¬ (t_min ≤ sphere_t1 S s ray ∧ sphere_t1 S s ray ≤ t_max) := by
        rcases h1 with h | h
        · exact fun hc => absurd hc.1 (not_le.mpr h)
        · exact fun hc => absurd hc.2 (not_le.mpr h)
      rw [if_pos h1, if_neg h1']
      by_cases h2 : sphere_t2 S s ray < t_min ∨ t_max < sphere_t2 S s ray
      · have h2' : ¬ (t_min ≤ sphere_t2 S s ray ∧ sphere_t2 S s ray ≤ t_max) := by
          rcases h2 with h | h
          · exact fun hc => absurd hc.1 (not_le.mpr h)
          · exact fun hc => absurd hc.2 (not_le.mpr h)
        rw [if_pos h2, if_neg h2']
      · push_neg at h2
        rw [if_neg (by rw [not_or, not_lt, not_lt]; exact h2), if_pos h2]
        exact congrArg some (sphere_mk_hit_eq_spec s ray _)
    · push_neg at h1
      rw [if_neg (by rw [not_or, not_lt, not_lt]; exact h1), if_pos h1]
      exact congrArg some (sphere_mk_hit_eq_spec s ray _)

/-- C3 witness: code and spec agree on a concrete positive-radius sphere. -/
theorem sphere_hit_implements_spec_witness :
    (0 : ℚ) < exSphereA.radius ∧
    Sphere.hit exSqrt exSphereA exRay 0 10
      = Sphere.hit_from_spec exSqrt exSphereA exRay 0 10 :=
  ⟨by norm_num [exSphereA],
    sphere_hit_implements_spec exSqrt exSphereA exRay 0 10
      (by norm_num [exSphereA])⟩

-- Shared lemmas for the scene-aggregate claims (C1, C10)
-- --------------------------------------------------------------------------

@[simp] lemma sphere_mk_hit_t (s : Sphere) (ray : Ray) (t : ℚ) :
    (sphere_mk_hit s ray t).t = t := rfl

@[simp] lemma sphere_mk_hit_point (s : Sphere) (ray : Ray) (t : ℚ) :
    (sphere_mk_hit s ray t).hit_point = ray.point_at_parameter t := rfl

/-- Rejection of the whole query when the discriminant is negative. -/
lemma sphere_hit_no_disc (S : ℚ → ℚ) (s : Sphere) (ray : Ray)
    {t_min t_max : ℚ} (hd : sphere_disc s ray < 0) :
    Sphere.hit S s ray t_min t_max = none := by
  rw [sphere_hit_cases, if_pos hd]

/-- Acceptance of the smaller root when it is inside the window. -/
lemma sphere_hit_t1_intro (S : ℚ → ℚ) (s : Sphere) (ray : Ray)
    {t_min t_max : ℚ} (hd : ¬ sphere_disc s ray < 0)
    (h1 : ¬ (sphere_t1 S s ray < t_min ∨ t_max < sphere_t1 S s ray)) :
    Sphere.hit S s ray t_min t_max
      = some (sphere_mk_hit s ray (sphere_t1 S s ray)) := by
  rw [sphere_hit_cases, if_neg hd, if_neg h1]

/-- Fallback to the larger root when the smaller root is out of window. -/
lemma sphere_hit_t2_intro (S : ℚ → ℚ) (s : Sphere) (ray : Ray)
    {t_min t_max : ℚ} (hd : ¬ sphere_disc s ray < 0)
    (h1 : sphere_t1 S s ray < t_min ∨ t_max < sphere_t1 S s ray)
    (h2 : ¬ (sphere_t2 S s ray < t_min ∨ t_max < sphere_t2 S s ray)) :
    Sphere.hit S s ray t_min t_max
      = some (sphere_mk_hit s ray (sphere_t2 S s ray)) := by
  rw [sphere_hit_cases, if_neg hd, if_pos h1, if_neg h2]

/-- Rejection when both roots are out of window. -/
lemma sphere_hit_none_intro (S : ℚ → ℚ) (s : Sphere) (ray : Ray)
    {t_min t_max : ℚ} (hd : ¬ sphere_disc s ray < 0)
    (h1 : sphere_t1 S s ray < t_min ∨ t_max < sphere_t1 S s ray)
    (h2 : sphere_t2 S s ray < t_min ∨ t_max < sphere_t2 S s ray) :
    Sphere.hit S s ray t_min t_max = none := by
  rw [sphere_hit_cases, if_neg hd, if_pos h1, if_pos h2]

/-- Inversion of a successful sphere hit: the discriminant is nonnegative,
and the record is either the in-window smaller root or, with the smaller
root out of window, the in-window larger root. -/
lemma sphere_hit_some_elim (S : ℚ → ℚ) (s : Sphere) (ray : Ray)
    {t_min t_max : ℚ} {d : HitData}
    (h : Sphere.hit S s ray t_min t_max = some d) :
    ¬ sphere_disc s ray < 0 ∧
    ((¬ (sphere_t1 S s ray < t_min ∨ t_max < sphere_t1 S s ray) ∧
        d = sphere_mk_hit s ray (sphere_t1 S s ray)) ∨
     ((sphere_t1 S s ray < t_min ∨ t_max < sphere_t1 S s ray) ∧
        ¬ (sphere_t2 S s ray < t_min ∨ t_max < sphere_t2 S s ray) ∧
        d = sphere_mk_hit s ray (sphere_t2 S s ray))) := by
  by_cases hd : sphere_disc s ray < 0
  · rw [sphere_hit_no_disc S s ray hd] at h
    exact absurd h (by simp)
  · refine ⟨hd, ?_⟩
    by_cases h1 : sphere_t1 S s ray < t_min ∨ t_max < sphere_t1 S s ray
    · by_cases h2 : sphere_t2 S s ray < t_min ∨ t_max < sphere_t2 S s ray
      · rw [sphere_hit_none_intro S s ray hd h1 h2] at h
        exact absurd h (by simp)
      · rw [sphere_hit_t2_intro S s ray hd h1 h2] at h
        exact Or.inr ⟨h1, h2, (Option.some.injEq _ _ ▸ h).symm⟩
    · rw [sphere_hit_t1_intro S s ray hd h1] at h
      exact Or.inl ⟨h1, (Option.some.injEq _ _ ▸ h).symm⟩

/-- Every sphere's `hit` reports an in-window parameter whose point lies on
the ray. -/
lemma sphere_hit_sound (S : ℚ → ℚ) (s : Sphere) (ray : Ray) :
    ElementSound (Sphere.hit S s) ray := by
  intro t_min t_max d h
  obtain ⟨hd, hcase⟩ := sphere_hit_some_elim S s ray h
  rcases hcase with ⟨h1, rfl⟩ | ⟨h1, h2, rfl⟩
  · push_neg at h1
    exact ⟨by simpa using h1.1, by simpa using h1.2, rfl⟩
  · push_neg at h2
    exact ⟨by simpa using h2.1, by simpa using h2.2, rfl⟩

/-- A sphere's `hit` satisfies the scene-fold contract, given a nonzero ray
direction (so the quadratic leading coefficient is positive) and a
nonnegative sqrt model (so the two roots are ordered). -/
lemma sphere_hit_contract (S : ℚ → ℚ) (s : Sphere) (ray : Ray)
    (hdir : ray.direction ≠ ⟨0, 0, 0⟩) (hS : ∀ q, 0 ≤ S q) :
    HittableContract (Sphere.hit S s) ray := by
  have ha : 0 < ray.direction.length_squared := length_squared_pos _ hdir
  have ht12 : sphere_t1 S s ray ≤ sphere_t2 S s ray := by
    unfold sphere_t1 sphere_t2
    exact (div_le_div_right ha).mpr (by linarith [hS (sphere_disc s ray)])
  refine ⟨?_, ?_, ?_, ?_⟩
  · intro t_min t_max d h
    obtain ⟨hb1, hb2, _⟩ := sphere_hit_sound S s ray t_min t_max d h
    exact ⟨hb1, hb2⟩
  · intro t_min t_max t_max' d h hle hdt
    obtain ⟨hd, hcase⟩ := sphere_hit_some_elim S s ray h
    rcases hcase with ⟨h1, rfl⟩ | ⟨h1, h2, rfl⟩
    · simp only [sphere_mk_hit_t] at hdt
      push_neg at h1
      exact sphere_hit_t1_intro S s ray hd
        (by push_neg; exact ⟨h1.1, hdt⟩)
    · simp only [sphere_mk_hit_t] at hdt
      have h1' : sphere_t1 S s ray < t_min ∨ t_max' < sphere_t1 S s ray := by
        rcases h1 with h' | h'
        · exact Or.inl h'
        · -- a smaller root beyond the old window contradicts the accepted
          -- larger root being inside it
          push_neg at h2
          exact absurd (le_trans ht12 h2.2) (not_le.mpr h')
      push_neg at h2
      exact sphere_hit_t2_intro S s ray hd h1'
        (by push_neg; exact ⟨h2.1, hdt⟩)
  · intro t_min t_max t_max' h hle
    by_cases hd : sphere_disc s ray < 0
    · exact sphere_hit_no_disc S s ray hd
    · by_cases h1 : sphere_t1 S s ray < t_min ∨ t_max < sphere_t1 S s ray
      · by_cases h2 : sphere_t2 S s ray < t_min ∨ t_max < sphere_t2 S s ray
        · refine sphere_hit_none_intro S s ray hd ?_ ?_
          · rcases h1 with h' | h'
            · exact Or.inl h'
            · exact Or.inr (lt_of_le_of_lt hle h')
          · rcases h2 with h' | h'
            · exact Or.inl h'
            · exact Or.inr (lt_of_le_of_lt hle h')
        · rw [sphere_hit_t2_intro S s ray hd h1 h2] at h
          exact absurd h (by simp)
      · rw [sphere_hit_t1_intro S s ray hd h1] at h
        exact absurd h (by simp)
  · intro t_min t_max t_max' d h hle hfar
    obtain ⟨hd, hcase⟩ := sphere_hit_some_elim S s ray h
    rcases hcase with ⟨h1, rfl⟩ | ⟨h1, h2, rfl⟩
    · simp only [sphere_mk_hit_t] at hfar
      exact sphere_hit_none_intro S s ray hd (Or.inr hfar)
        (Or.inr (lt_of_lt_of_le hfar ht12))
    · simp only [sphere_mk_hit_t] at hfar
      have h1' : sphere_t1 S s ray < t_min ∨ t_max' < sphere_t1 S s ray := by
        rcases h1 with h' | h'
        · exact Or.inl h'
        · push_neg at h2
          exact absurd (le_trans ht12 h2.2) (not_le.mpr h')
      exact sphere_hit_none_intro S s ray hd h1' (Or.inr hfar)

/-- The scene loop body computes the fold of `select_closest` over the
elements' full-window hits, provided every element obeys the contract; the
invariant ties the running `closest_so_far` to the accumulator. -/
lemma scene_hitAux_eq_spec (ray : Ray) (t_min t_max0 : ℚ) :
    ∀ elems : List Hittable, (∀ e ∈ elems, HittableContract e ray) →
    ∀ (acc : Option HitData) (cur : ℚ),
      (acc = none ∧ cur = t_max0 ∨ ∃ b, acc = some b ∧ cur = b.t ∧ b.t ≤ t_max0) →
      Scene.hitAux ray t_min elems acc cur =
        (elems.map (fun e => e ray t_min t_max0)).foldl select_closest acc := by
  intro elems
  induction elems with
  | nil => intro _ acc cur _; rfl
  | cons e rest ih =>
    intro hc acc cur hinv
    have ce : HittableContract e ray := hc e (List.mem_cons_self e rest)
    have hrest : ∀ x ∈ rest, HittableContract x ray :=
      fun x hx => hc x (List.mem_cons_of_mem _ hx)
    have hcur_le : cur ≤ t_max0 := by
      rcases hinv with ⟨_, hcur⟩ | ⟨b, _, hcur, hb⟩
      · exact hcur.le
      · exact hcur ▸ hb
    cases hfull : e ray t_min t_max0 with
    | none =>
      have hsh : e ray t_min cur = none :=
        ce.shrink_none t_min t_max0 cur hfull hcur_le
      simp only [Scene.hitAux, hsh, List.map_cons, List.foldl_cons, hfull]
      rw [show select_closest acc none = acc from rfl]
      exact ih hrest acc cur hinv
    | some d =>
      have hbd := ce.bound t_min t_max0 d hfull
      by_cases hcd : d.t ≤ cur
      · have hst : e ray t_min cur = some d :=
          ce.stable t_min t_max0 cur d hfull hcur_le hcd
        simp only [Scene.hitAux, hst, List.map_cons, List.foldl_cons, hfull]
        have hsel : select_closest acc (some d) = some d := by
          rcases hinv with ⟨hacc, _⟩ | ⟨b, hacc, hcur, _⟩
          · rw [hacc]; rfl
          · rw [hacc]
            have : d.t ≤ b.t := hcur ▸ hcd
            simp [select_closest, this]
        rw [hsel]
        exact ih hrest (some d) d.t (Or.inr ⟨d, rfl, rfl, hbd.2⟩)
      · have hfar : e ray t_min cur = none :=
          ce.far_none t_min t_max0 cur d hfull hcur_le (not_le.mp hcd)
        simp only [Scene.hitAux, hfar, List.map_cons, List.foldl_cons, hfull]
        have hsel : select_closest acc (some d) = acc := by
          rcases hinv with ⟨_, hcur⟩ | ⟨b, hacc, hcur, _⟩
          · exact absurd (hcur ▸ hbd.2) hcd
          · rw [hacc]
            have : ¬ d.t ≤ b.t := fun hle => hcd (hcur ▸ hle)
            simp [select_closest, this]
        rw [hsel]
        exact ih hrest acc cur hinv

/-- The fold result is the minimal-`t` hit: it is bounded by every `some`
entry of the list and by the accumulator. -/
lemma foldl_select_closest_min :
    ∀ (l : List (Option HitData)) (acc : Option HitData) (d : HitData),
      l.foldl select_closest acc = some d →
      (∀ o ∈ l, ∀ d', o = some d' → d.t ≤ d'.t) ∧
      (∀ b, acc = some b → d.t ≤ b.t) := by
  intro l
  induction l with
  | nil =>
    intro acc d h
    refine ⟨by simp, ?_⟩
    intro b hb
    rw [hb] at h
    cases h
    exact le_rfl
  | cons o rest ih =>
    intro acc d h
    rw [List.foldl_cons] at h
    obtain ⟨hrest, hacc'⟩ := ih (select_closest acc o) d h
    constructor
    · intro o' ho' d' hd'
      rcases List.mem_cons.mp ho' with rfl | hmem
      · cases acc with
        | none => exact hacc' d' (by rw [hd']; rfl)
        | some b =>
          by_cases hle : d'.t ≤ b.t
          · exact hacc' d' (by rw [hd']; simp [select_closest, hle])
          · exact le_trans (hacc' b (by rw [hd']; simp [select_closest, hle]))
              (le_of_lt (not_le.mp hle))
      · exact hrest o' hmem d' hd'
    · intro b hb
      subst hb
      cases o with
      | none => exact hacc' b rfl
      | some d' =>
        by_cases hle : d'.t ≤ b.t
        · exact le_trans (hacc' d' (by simp [select_closest, hle])) hle
        · exact hacc' b (by simp [select_closest, hle])

/-- The fold misses exactly when the accumulator and every entry miss. -/
lemma foldl_select_closest_eq_none :
    ∀ (l : List (Option HitData)) (acc : Option HitData),
      l.foldl select_closest acc = none ↔ acc = none ∧ ∀ o ∈ l, o = none := by
  intro l
  induction l with
  | nil => intro acc; simp
  | cons o rest ih =>
    intro acc
    rw [List.foldl_cons, ih]
    constructor
    · rintro ⟨hsel, hrest⟩
      have hao : acc = none ∧ o = none := by
        cases o with
        | none => exact ⟨hsel, rfl⟩
        | some d =>
          cases acc with
          | none => simp [select_closest] at hsel
          | some b => by_cases hle : d.t ≤ b.t <;>
              simp [select_closest, hle] at hsel
      refine ⟨hao.1, ?_⟩
      intro o' ho'
      rcases List.mem_cons.mp ho' with rfl | hm
      · exact hao.2
      · exact hrest o' hm
    · rintro ⟨hacc, hall⟩
      have ho : o = none := hall o (List.mem_cons_self _ _)
      rw [hacc, ho]
      exact ⟨rfl, fun o' ho' => hall o' (List.mem_cons_of_mem _ ho')⟩

/-- The scene loop preserves element soundness: the accumulator invariant
carries the parameter bounds and the on-ray property. -/
lemma scene_hitAux_sound (ray : Ray) (t_min t_max : ℚ) :
    ∀ elems : List Hittable, (∀ e ∈ elems, ElementSound e ray) →
    ∀ (acc : Option HitData) (cur : ℚ), cur ≤ t_max →
      (∀ b, acc = some b → t_min ≤ b.t ∧ b.t ≤ t_max ∧
        b.hit_point = ray.point_at_parameter b.t) →
      ∀ d, Scene.hitAux ray t_min elems acc cur = some d →
        t_min ≤ d.t ∧ d.t ≤ t_max ∧
          d.hit_point = ray.point_at_parameter d.t := by
  intro elems
  induction elems with
  | nil =>
    intro _ acc cur _ hacc d h
    exact hacc d h
  | cons e rest ih =>
    intro hc acc cur hcur hacc d h
    have hrest : ∀ x ∈ rest, ElementSound x ray :=
      fun x hx => hc x (List.mem_cons_of_mem _ hx)
    simp only [Scene.hitAux] at h
    cases hcall : e ray t_min cur with
    | some hd =>
      rw [hcall] at h
      obtain ⟨hs1, hs2, hs3⟩ :=
        hc e (List.mem_cons_self e rest) t_min cur hd hcall
      exact ih hrest (some hd) hd.t (le_trans hs2 hcur)
        (by rintro b hb; cases hb; exact ⟨hs1, le_trans hs2 hcur, hs3⟩) d h
    | none =>
      rw [hcall] at h
      exact ih hrest acc cur hcur hacc d h

-- Claim C1
-- --------------------------------------------------------------------------

/-- C1 counterexample: two identical spheres with distinguishable materials
produce hits with equal `t = 1`; the scene returns the record of the
later-added sphere (material B), not the earlier one, because the inclusive
range check `t_max < t` admits a later hit at exactly `t = closest_so_far`. -/
theorem scene_hit_tie_counterexample :
    Scene.hit ⟨[Sphere.hit exSqrt exSphereA, Sphere.hit exSqrt exSphereB]⟩
        exRay 0 10 = some ⟨⟨0, 0, -1⟩, ⟨0, 0, 1⟩, exMatB, 1⟩ ∧
    Sphere.hit exSqrt exSphereA exRay 0 10
        = some ⟨⟨0, 0, -1⟩, ⟨0, 0, 1⟩, exMatA, 1⟩ ∧
    Sphere.hit exSqrt exSphereB exRay 0 10
        = some ⟨⟨0, 0, -1⟩, ⟨0, 0, 1⟩, exMatB, 1⟩ ∧
    exMatA ≠ exMatB := by
  have hA : Sphere.hit exSqrt exSphereA exRay 0 10
      = some ⟨⟨0, 0, -1⟩, ⟨0, 0, 1⟩, exMatA, 1⟩ := by
    norm_num [Sphere.hit, Vec3.dot, Vec3.length_squared, exSphereA, exRay,
      exSqrt, Ray.point_at_parameter, get_face_normal, vec3_eq]
  have hB : Sphere.hit exSqrt exSphereB exRay 0 10
      = some ⟨⟨0, 0, -1⟩, ⟨0, 0, 1⟩, exMatB, 1⟩ := by
    norm_num [Sphere.hit, Vec3.dot, Vec3.length_squared, exSphereB, exRay,
      exSqrt, Ray.point_at_parameter, get_face_normal, vec3_eq]
  have hB1 : Sphere.hit exSqrt exSphereB exRay 0 1
      = some ⟨⟨0, 0, -1⟩, ⟨0, 0, 1⟩, exMatB, 1⟩ := by
    norm_num [Sphere.hit, Vec3.dot, Vec3.length_squared, exSphereB, exRay,
      exSqrt, Ray.point_at_parameter, get_face_normal, vec3_eq]
  refine ⟨?_, hA, hB, by norm_num [exMatA, exMatB, vec3_eq]⟩
  show Scene.hitAux exRay 0 _ none 10 = _
  simp only [Scene.hitAux, hA]
  simp only [Scene.hitAux, hB1]

/-- C1 amended: for a scene whose elements obey the shrink/stability
contract (as spheres do), `Scene.hit` returns the hit with the globally
smallest `t` among the elements' full-window hits, and `none` exactly when
all elements miss; ties are resolved in favor of the *later*-added element,
because the inclusive range check (reject only when `t_max < t`) lets a
later equal hit replace the current closest. -/
theorem scene_hit_closest (elems : List Hittable) (ray : Ray)
    (t_min t_max : ℚ) (hc : ∀ e ∈ elems, HittableContract e ray) :
    Scene.hit ⟨elems⟩ ray t_min t_max
        = closest_hit_from_spec (elems.map (fun e => e ray t_min t_max)) ∧
    (∀ d, Scene.hit ⟨elems⟩ ray t_min t_max = some d →
      ∀ e ∈ elems, ∀ d', e ray t_min t_max = some d' → d.t ≤ d'.t) ∧
    (Scene.hit ⟨elems⟩ ray t_min t_max = none ↔
      ∀ e ∈ elems, e ray t_min t_max = none) := by
  have heq : Scene.hit ⟨elems⟩ ray t_min t_max
      = (elems.map (fun e => e ray t_min t_max)).foldl select_closest none :=
    scene_hitAux_eq_spec ray t_min t_max elems hc none t_max
      (Or.inl ⟨rfl, rfl⟩)
  refine ⟨heq, ?_, ?_⟩
  · intro d hd e he d' hd'
    rw [heq] at hd
    exact (foldl_select_closest_min _ none d hd).1 (e ray t_min t_max)
      (List.mem_map_of_mem _ he) d' hd'
  · rw [heq, foldl_select_closest_eq_none]
    constructor
    · rintro ⟨_, hall⟩ e he
      exact hall _ (List.mem_map_of_mem _ he)
    · intro hall
      refine ⟨rfl, ?_⟩
      rintro o ho
      rcases List.mem_map.mp ho with ⟨e, he, rfl⟩
      exact hall e he

/-- C1 amended witness: the two-sphere scene instantiates the contract and
the fold equality. -/
theorem scene_hit_closest_witness :
    (∀ e ∈ [Sphere.hit exSqrt exSphereA, Sphere.hit exSqrt exSphereB],
      HittableContract e exRay) ∧
    Scene.hit ⟨[Sphere.hit exSqrt exSphereA, Sphere.hit exSqrt exSphereB]⟩
        exRay 0 10
      = closest_hit_from_spec
          ([Sphere.hit exSqrt exSphereA, Sphere.hit exSqrt exSphereB].map
            (fun e => e exRay 0 10)) := by
  have hdir : exRay.direction ≠ ⟨0, 0, 0⟩ := by
    norm_num [exRay, vec3_eq]
  have hc : ∀ e ∈ [Sphere.hit exSqrt exSphereA, Sphere.hit exSqrt exSphereB],
      HittableContract e exRay := by
    intro e he
    rcases List.mem_cons.mp he with rfl | he2
    · exact sphere_hit_contract exSqrt exSphereA exRay hdir exSqrt_nonneg
    rcases List.mem_cons.mp he2 with rfl | he3
    · exact sphere_hit_contract exSqrt exSphereB exRay hdir exSqrt_nonneg
    · exact absurd he3 (List.not_mem_nil e)
  exact ⟨hc, (scene_hit_closest _ exRay 0 10 hc).1⟩

-- Claim C10
-- --------------------------------------------------------------------------

/-- C10: for rays with a nonzero direction, every record returned by
`Sphere.hit` has its parameter inside `[t_min, t_max]` and its hit point on
the ray at that parameter; `Scene.hit` preserves this soundness from its
elements; and the empty scene always reports `none`. -/
theorem hit_invariants :
    (∀ (S : ℚ → ℚ) (s : Sphere) (ray : Ray),
      ray.direction ≠ ⟨0, 0, 0⟩ → ElementSound (Sphere.hit S s) ray) ∧
    (∀ (elems : List Hittable) (ray : Ray),
      (∀ e ∈ elems, ElementSound e ray) →
      ElementSound (Scene.hit ⟨elems⟩) ray) ∧
    (∀ (ray : Ray) (t_min t_max : ℚ), Scene.hit ⟨[]⟩ ray t_min t_max = none) := by
  refine ⟨?_, ?_, ?_⟩
  · intro S s ray _
    exact sphere_hit_sound S s ray
  · intro elems ray hsound t_min t_max d h
    exact scene_hitAux_sound ray t_min t_max elems hsound none t_max le_rfl
      (by rintro b hb; exact absurd hb (by simp)) d h
  · intro ray t_min t_max
    rfl

/-- C10 witness: the concrete sphere hit at `t = 1` is in window and on the
ray, and the empty scene misses. -/
theorem hit_invariants_witness :
    exRay.direction ≠ (⟨0, 0, 0⟩ : Vec3) ∧
    ((1 : ℚ)/1000 ≤ 1 ∧ (1 : ℚ) ≤ 10 ∧
      (⟨0, 0, -1⟩ : Vec3) = exRay.point_at_parameter 1) ∧
    Scene.hit ⟨[]⟩ exRay 0 1 = none := by
  have hdir : exRay.direction ≠ (⟨0, 0, 0⟩ : Vec3) := by
    norm_num [exRay, vec3_eq]
  have hhit : Sphere.hit exSqrt exSphereA exRay (1/1000) 10
      = some ⟨⟨0, 0, -1⟩, ⟨0, 0, 1⟩, exMatA, 1⟩ := by
    norm_num [Sphere.hit, Vec3.dot, Vec3.length_squared, exSphereA, exRay,
      exSqrt, Ray.point_at_parameter, get_face_normal, vec3_eq]
  refine ⟨hdir, ?_, hit_invariants.2.2 exRay 0 1⟩
  exact hit_invariants.1 exSqrt exSphereA exRay hdir (1/1000) 10
    ⟨⟨0, 0, -1⟩, ⟨0, 0, 1⟩, exMatA, 1⟩ hhit

end LTSR
